import Mathlib

/-
Verification development for the Ali 2025 campaign bot knowledge engine.

The definitions below are a shallow embedding of the Python sources
backend/src/knowledge_base.py and backend/src/enhanced_response_generator.py.
Python strings are modelled as Lean String (a list of Unicode characters),
floats as exact rationals, SQLite tables as Lean lists of row structures.
Every definition is executable; theorems at the end of the file state and
settle the specified properties.
-/

/-! ## Character and string helpers (Python string semantics) -/

/-- Whitespace recognized by the Python str.split() with no arguments
(space, tab, newline, carriage return, form feed, vertical tab). -/
def pyIsWs (c : Char) : Bool :=
  c = ' ' || c = '\t' || c = '\n' || c = '\u000D' || c = '\u000C' || c = '\u000B'

/-- ASCII uppercase test (codepoints 65 to 90). -/
def isUpperA (c : Char) : Bool :=
  decide (65 ≤ c.toNat ∧ c.toNat ≤ 90)

/-- Uppercase accented Latin letters and their lowercase forms, covering the
characters relevant to this code base; mirrors the effect of Python
str.lower() on them. -/
def accentPairs : List (Char × Char) :=
  [('Á', 'á'), ('É', 'é'), ('Í', 'í'), ('Ó', 'ó'), ('Ú', 'ú'), ('Ñ', 'ñ'),
   ('Ü', 'ü'), ('Ç', 'ç'), ('À', 'à'), ('È', 'è'), ('Ù', 'ù'), ('Â', 'â'),
   ('Ê', 'ê'), ('Î', 'î'), ('Ô', 'ô'), ('Û', 'û')]

/-- Python str.lower() on a single character: ASCII letters are shifted by
32, the accented uppercase letters used by this repository are mapped via
the table, all other characters are unchanged. -/
def pyLowerChar (c : Char) : Char :=
  if 65 ≤ c.toNat ∧ c.toNat ≤ 90 then Char.ofNat (c.toNat + 32)
  else
    match accentPairs.find? (fun p => p.1 = c) with
    | some p => p.2
    | none => c

/-- Python str.lower() over a whole string. -/
def pyLower (s : String) : String := ⟨s.data.map pyLowerChar⟩

/-- Python str.strip(): drop leading and trailing whitespace. -/
def pyStrip (s : String) : String :=
  ⟨((s.data.dropWhile pyIsWs).reverse.dropWhile pyIsWs).reverse⟩

/-- Accumulating worker for whitespace splitting; cur holds the current
token reversed. -/
def pySplitGo : List Char → List Char → List (List Char)
  | [], cur => if cur.isEmpty then [] else [cur.reverse]
  | c :: t, cur =>
      if pyIsWs c then
        if cur.isEmpty then pySplitGo t [] else cur.reverse :: pySplitGo t []
      else pySplitGo t (c :: cur)

/-- Python str.split() with no arguments: split on whitespace runs,
discarding empty pieces. -/
def pySplit (s : String) : List String :=
  (pySplitGo s.data []).map (fun cs => ⟨cs⟩)

/-- Python " ".join(words). -/
def joinSpace : List String → String
  | [] => ""
  | [w] => w
  | w :: ws => w ++ " " ++ joinSpace ws

/-- Substring test: does hay contain needle as a contiguous substring?
Models the Python in operator on strings and the SQL LIKE pattern
with a percent sign on both sides. -/
def containsSub (hay needle : List Char) : Bool :=
  match hay with
  | [] => needle.isEmpty
  | _ :: t => needle.isPrefixOf hay || containsSub t needle

/-- Alphanumeric test modelling Python str.isalnum() on the characters this
repository uses: ASCII letters and digits plus the accented Latin letters
from the multilingual keyword tables. -/
def pyIsAlnum (c : Char) : Bool :=
  c.isAlphanum || (accentPairs.any (fun p => p.1 = c || p.2 = c))

/-! ## Data model (knowledge_base.py) -/

/-- ContentType enumeration. -/
inductive ContentType where
  | policy | biography | speech | voting_record | position_statement
  | faq | news_article | campaign_event | endorsement
  deriving DecidableEq

/-- SourceCredibility enumeration. -/
inductive SourceCredibility where
  | primary | verified | secondary | unverified
  deriving DecidableEq

/-- String value of a SourceCredibility member, as in the Python enum. -/
def SourceCredibility.value : SourceCredibility → String
  | .primary => "primary"
  | .verified => "verified"
  | .secondary => "secondary"
  | .unverified => "unverified"

/-- KnowledgeSource dataclass. The optional publication date is omitted:
no modelled operation reads it. -/
structure KnowledgeSource where
  url : String
  title : String
  source_type : String
  credibility : SourceCredibility
  author : Option String := none
  language : String := "en"
  deriving DecidableEq

/-- KnowledgeItem dataclass. The creation and update timestamps are
omitted: no modelled operation reads them. -/
structure KnowledgeItem where
  id : String
  content : String
  content_type : ContentType
  topic : String
  subtopic : Option String := none
  keywords : List String := []
  sources : List KnowledgeSource := []
  confidence_score : ℚ := 1
  language : String := "en"
  deriving DecidableEq

/-! ## Sorting relations (Python sorted with reverse=True is a stable
descending sort; List.insertionSort with these relations matches it) -/

/-- Descending order on (item, score) pairs by score. -/
def byScoreDesc (a b : KnowledgeItem × ℚ) : Prop := b.2 ≤ a.2

instance : DecidableRel byScoreDesc :=
  fun a b => inferInstanceAs (Decidable (b.2 ≤ a.2))

instance : IsTotal (KnowledgeItem × ℚ) byScoreDesc :=
  ⟨fun a b => le_total b.2 a.2⟩

instance : IsTrans (KnowledgeItem × ℚ) byScoreDesc :=
  ⟨fun _ _ _ h1 h2 => le_trans h2 h1⟩

/-- Descending order on items by stored confidence score; models the SQL
ORDER BY confidence_score DESC used by the stage queries. -/
def byConfDesc (a b : KnowledgeItem) : Prop :=
  b.confidence_score ≤ a.confidence_score

instance : DecidableRel byConfDesc :=
  fun a b => inferInstanceAs (Decidable (b.confidence_score ≤ a.confidence_score))

/-- Sort (item, score) pairs by descending score. -/
def sortByScoreDesc (l : List (KnowledgeItem × ℚ)) : List (KnowledgeItem × ℚ) :=
  l.insertionSort byScoreDesc

/-- Sort items by descending stored confidence. -/
def orderByConfDesc (l : List KnowledgeItem) : List KnowledgeItem :=
  l.insertionSort byConfDesc

/-! ## Query normalization (knowledge_base.py _normalize_query) -/

/-- Fixed per-language stop-word lists. -/
def stopWords : String → List String
  | "en" => ["the", "is", "are", "was", "were", "will", "would", "should", "could"]
  | "es" => ["el", "la", "los", "las", "es", "son", "fue", "fueron", "será"]
  | "ar" => ["في", "من", "إلى", "على", "هو", "هي", "كان", "كانت"]
  | "fr" => ["le", "la", "les", "est", "sont", "était", "étaient", "sera"]
  | _ => []

/-- Normalize a query: lower-case, strip, split on whitespace, drop
stop words of the given language, re-join with single spaces. -/
def normalizeQuery (query : String) (language : String) : String :=
  let q := pyStrip (pyLower query)
  joinSpace ((pySplit q).filter (fun w => decide (w ∉ stopWords language)))

/-! ## Exact-keyword stage (knowledge_base.py _search_exact_keywords) -/

/-- Language filter used by every stage query:
WHERE language = target OR language = the default language en. -/
def langMatches (it : KnowledgeItem) (language : String) : Prop :=
  it.language = language ∨ it.language = "en"

instance (it : KnowledgeItem) (language : String) : Decidable (langMatches it language) :=
  inferInstanceAs (Decidable (_ ∨ _))

/-- Set of whitespace tokens of the (already normalized) query. -/
def queryTokenSet (query : String) : Finset String := (pySplit query).toFinset

/-- Set of keywords of an item. -/
def keywordSet (it : KnowledgeItem) : Finset String := it.keywords.toFinset

/-- Size of the overlap between query-token set and item keyword set. -/
def keywordOverlap (query : String) (it : KnowledgeItem) : Nat :=
  ((queryTokenSet query) ∩ (keywordSet it)).card

/-- Raw exact-keyword score: overlap size over the larger of the two set
sizes. -/
def exactScore (query : String) (it : KnowledgeItem) : ℚ :=
  (keywordOverlap query it : ℚ) /
    ((max (queryTokenSet query).card (keywordSet it).card : Nat) : ℚ)

/-- Exact-keyword stage: scan items in the target or default language in
descending stored-confidence order, keep those with positive keyword
overlap, raw score = overlap / max set size. -/
def searchExactKeywords (kb : List KnowledgeItem) (query : String)
    (language : String) : List (KnowledgeItem × ℚ) :=
  (orderByConfDesc (kb.filter (fun it => decide (langMatches it language)))).filterMap
    (fun it =>
      if 0 < keywordOverlap query it then some (it, exactScore query it) else none)

/-! ## Full-text stage (knowledge_base.py _search_fts) -/

/-- Sanitize query tokens for the text index: keep only alphanumeric
characters of each token and drop tokens that become empty. -/
def cleanFtsWords (query : String) : List String :=
  (pySplit query).filterMap (fun w =>
    let cw := w.data.filter pyIsAlnum
    if cw.isEmpty then none else some ⟨cw⟩)

/-- Maximal alphanumeric runs of a character list; worker with the current
run held reversed. -/
def alnumRunsGo : List Char → List Char → List (List Char)
  | [], cur => if cur.isEmpty then [] else [cur.reverse]
  | c :: t, cur =>
      if pyIsAlnum c then alnumRunsGo t (c :: cur)
      else if cur.isEmpty then alnumRunsGo t [] else cur.reverse :: alnumRunsGo t []

/-- Tokenization used to model the fts5 unicode61 tokenizer: lower-cased
maximal alphanumeric runs (diacritic removal is not modelled; the
witnesses below only use plain ASCII text). -/
def alnumRuns (s : String) : List String :=
  (alnumRunsGo (pyLower s).data []).map (fun cs => ⟨cs⟩)

/-- Tokens of the text-index row of an item, mirroring the indexed columns
(content, topic, subtopic, keywords joined by spaces). -/
def ftsTokensOf (it : KnowledgeItem) : List String :=
  alnumRuns it.content ++ alnumRuns it.topic ++
    (match it.subtopic with | some s => alnumRuns s | none => []) ++
    alnumRuns (joinSpace it.keywords)

/-- A row matches the OR of the quoted one-word phrases when some sanitized
word occurs among its index tokens. -/
def ftsMatch (it : KnowledgeItem) (words : List String) : Bool :=
  words.any (fun w => (ftsTokensOf it).contains (pyLower w))

/-- Full-text stage. If the sanitized token list is empty the stage
returns the empty result list directly (the source returns early,
before building the MATCH query). Otherwise matching rows in the target
or default language are returned with flat raw score 0.7, capped at 10
rows by the LIMIT clause. A syntactically invalid MATCH never arises for
sanitized tokens, so the exception branch that would call the substring
fallback is not reachable in this model. -/
def searchFts (kb : List KnowledgeItem) (query : String)
    (language : String) : List (KnowledgeItem × ℚ) :=
  let cleanWords := cleanFtsWords query
  if cleanWords.isEmpty then []
  else
    ((kb.filter (fun it =>
        ftsMatch it cleanWords && decide (langMatches it language))).take 10).map
      (fun it => (it, 7/10))

/-! ## Substring fallback stage (knowledge_base.py _fallback_content_search) -/

/-- Text stored in the keywords column of the items table:
json.dumps of the keyword list (no escaping modelled; the keywords in
this repository contain no characters needing JSON escapes). -/
def jsonDumpsKeywords (keywords : List String) : String :=
  "[" ++ String.intercalate ", " (keywords.map (fun k => "\"" ++ k ++ "\"")) ++ "]"

/-- ASCII-only case folding, as performed by the SQL LIKE operator. -/
def asciiFold (c : Char) : Char :=
  if 65 ≤ c.toNat ∧ c.toNat ≤ 90 then Char.ofNat (c.toNat + 32) else c

/-- LIKE with a percent sign on both sides of the word:
case-insensitive (ASCII) substring containment. -/
def likeContains (column : String) (word : String) : Bool :=
  containsSub (column.data.map asciiFold) (word.data.map asciiFold)

/-- Fallback substring stage: for each of the first three query tokens
longer than two characters, return items whose content or stored keyword
text contains the token, flat raw score 0.4, at most 5 rows per token. -/
def fallbackContentSearch (kb : List KnowledgeItem) (query : String)
    (language : String) : List (KnowledgeItem × ℚ) :=
  ((pySplit query).take 3).flatMap (fun w =>
    if 2 < w.data.length then
      ((orderByConfDesc (kb.filter (fun it =>
          (likeContains it.content w || likeContains (jsonDumpsKeywords it.keywords) w)
            && decide (langMatches it language)))).take 5).map
        (fun it => (it, 2/5))
    else [])

/-! ## Topic-hierarchy stage (knowledge_base.py _search_by_topic) -/

/-- Static topic hierarchy (_build_topic_hierarchy). -/
def topicHierarchy : List (String × List String) :=
  [("education", ["school_budget", "teacher_pay", "graduation_rates", "school_safety", "curriculum"]),
   ("housing", ["affordable_housing", "rent_control", "zoning", "development", "homelessness"]),
   ("transportation", ["bus_service", "bike_lanes", "traffic", "parking", "congestion_pricing"]),
   ("public_safety", ["police_reform", "crime_prevention", "community_policing", "emergency_services"]),
   ("economy", ["job_creation", "small_business", "taxation", "budget", "development"]),
   ("environment", ["climate_change", "green_energy", "sustainability", "pollution", "parks"]),
   ("healthcare", ["public_health", "mental_health", "healthcare_access", "insurance"]),
   ("governance", ["transparency", "accountability", "ethics", "civic_engagement"])]

/-- Replace underscores by spaces, as applied to subtopic labels. -/
def underscoresToSpaces (s : String) : String :=
  ⟨s.data.map (fun c => if c = '_' then ' ' else c)⟩

/-- Topics considered relevant to a query: a top-level topic whose name
occurs in the lowered query, appended once more for every subtopic label
(underscores as spaces) occurring in the lowered query. -/
def relevantTopicsFor (query : String) : List String :=
  let queryLower := pyLower query
  topicHierarchy.flatMap (fun ts =>
    (if containsSub queryLower.data (pyLower ts.1).data then [ts.1] else []) ++
      ts.2.filterMap (fun sub =>
        if containsSub queryLower.data (underscoresToSpaces (pyLower sub)).data
        then some ts.1 else none))

/-- Topic-hierarchy stage: when some topic is relevant, return the items
under the relevant topics (target or default language, descending stored
confidence), raw score 0.5 when the item topic is among the relevant
topics and 0.3 otherwise. -/
def searchByTopic (kb : List KnowledgeItem) (query : String)
    (language : String) : List (KnowledgeItem × ℚ) :=
  let relevant := relevantTopicsFor query
  if relevant.isEmpty then []
  else
    (orderByConfDesc (kb.filter (fun it =>
        relevant.contains it.topic && decide (langMatches it language)))).map
      (fun it => (it, if it.topic ∈ relevant then (1/2 : ℚ) else 3/10))

/-! ## Multilingual-expansion stage
(knowledge_base.py _search_multilingual_expansion) -/

/-- Static multilingual keyword map (_load_multilingual_keywords):
topic to language to word list. -/
def multilingualKeywords : List (String × List (String × List String)) :=
  [("education",
    [("en", ["education", "schools", "teachers", "students", "learning", "graduation", "classroom"]),
     ("es", ["educación", "escuelas", "maestros", "estudiantes", "aprendizaje", "graduación", "aula"]),
     ("ar", ["التعليم", "المدارس", "المعلمين", "الطلاب", "التعلم", "التخرج", "الفصول الدراسية"]),
     ("fr", ["éducation", "écoles", "enseignants", "étudiants", "apprentissage", "diplômation", "salle de classe"])]),
   ("housing",
    [("en", ["housing", "rent", "affordable", "apartments", "homes", "real estate", "landlord"]),
     ("es", ["vivienda", "alquiler", "asequible", "apartamentos", "casas", "bienes raíces", "propietario"]),
     ("ar", ["الإسكان", "الإيجار", "ميسور التكلفة", "الشقق", "المنازل", "العقارات", "المالك"]),
     ("fr", ["logement", "loyer", "abordable", "appartements", "maisons", "immobilier", "propriétaire"])]),
   ("transportation",
    [("en", ["transportation", "transit", "buses", "trains", "traffic", "roads", "public transport"]),
     ("es", ["transporte", "tránsito", "autobuses", "trenes", "tráfico", "carreteras", "transporte público"]),
     ("ar", ["النقل", "المواصلات", "الحافلات", "القطارات", "المرور", "الطرق", "النقل العام"]),
     ("fr", ["transport", "transit", "autobus", "trains", "circulation", "routes", "transport public"])]),
   ("safety",
    [("en", ["safety", "crime", "police", "security", "violence", "law enforcement"]),
     ("es", ["seguridad", "crimen", "policía", "seguridad", "violencia", "aplicación de la ley"]),
     ("ar", ["الأمان", "الجريمة", "الشرطة", "الأمن", "العنف", "إنفاذ القانون"]),
     ("fr", ["sécurité", "crime", "police", "sécurité", "violence", "application de la loi"])]),
   ("economy",
    [("en", ["economy", "jobs", "employment", "wages", "business", "taxes", "budget"]),
     ("es", ["economía", "empleos", "empleo", "salarios", "negocios", "impuestos", "presupuesto"]),
     ("ar", ["الاقتصاد", "الوظائف", "التوظيف", "الأجور", "الأعمال", "الضرائب", "الميزانية"]),
     ("fr", ["économie", "emplois", "emploi", "salaires", "entreprises", "taxes", "budget"])])]

/-- English keyword expansion of a query: for every topic whose word list
for the given language contains some query token (compared lower-cased),
contribute the English word list of that topic. -/
def expandedKeywordsFor (query : String) (language : String) : List String :=
  multilingualKeywords.flatMap (fun ts =>
    match ts.2.find? (fun lw => lw.1 = language) with
    | none => []
    | some lw =>
        if (pySplit query).any (fun w => lw.2.any (fun k => pyLower k = pyLower w)) then
          match ts.2.find? (fun lw2 => lw2.1 = "en") with
          | some en => en.2
          | none => []
        else [])

/-- Multilingual-expansion stage: when the expansion is non-empty, re-run
the exact-keyword stage on the space-joined expanded word list with the
default language. The stage receives the raw (not normalized) query, as
in the source. -/
def searchMultilingualExpansion (kb : List KnowledgeItem) (query : String)
    (language : String) : List (KnowledgeItem × ℚ) :=
  let expanded := expandedKeywordsFor query language
  if expanded.isEmpty then []
  else searchExactKeywords kb (joinSpace expanded) "en"

/-! ## Merge, sort and limit (knowledge_base.py search_knowledge) -/

/-- One step of the duplicate-removal loop over a Python dict keyed by
item id: a new id is appended, an existing id is overwritten in place
exactly when the incoming weighted score is strictly larger. -/
def mergeStep (acc : List (KnowledgeItem × ℚ)) (p : KnowledgeItem × ℚ) :
    List (KnowledgeItem × ℚ) :=
  if acc.any (fun q => decide (q.1.id = p.1.id)) then
    acc.map (fun q => if q.1.id = p.1.id ∧ q.2 < p.2 then p else q)
  else acc ++ [p]

/-- Union by item id keeping, for each id, the entry with the maximal
weighted score (first stage wins on ties). -/
def dedupMax (l : List (KnowledgeItem × ℚ)) : List (KnowledgeItem × ℚ) :=
  l.foldl mergeStep []

/-- Concatenated weighted contributions of the four retrieval stages:
exact keywords (weight 1.0), full text (0.8), topic hierarchy (0.6) and,
for non-default target languages, multilingual expansion (0.7). -/
def stageResults (kb : List KnowledgeItem) (query : String)
    (language : String) : List (KnowledgeItem × ℚ) :=
  let normalized := normalizeQuery query language
  ((searchExactKeywords kb normalized language).map (fun p => (p.1, p.2 * 1)))
    ++ ((searchFts kb normalized language).map (fun p => (p.1, p.2 * (8/10))))
    ++ ((searchByTopic kb normalized language).map (fun p => (p.1, p.2 * (6/10))))
    ++ (if language ≠ "en" then
          (searchMultilingualExpansion kb query language).map (fun p => (p.1, p.2 * (7/10)))
        else [])

/-- Multi-stage search: weighted stage results are unioned by id with
maximal score, sorted by descending score, and truncated to the limit. -/
def searchKnowledge (kb : List KnowledgeItem) (query : String)
    (language : String := "en") (limit : Nat := 10) : List (KnowledgeItem × ℚ) :=
  (sortByScoreDesc (dedupMax (stageResults kb query language))).take limit

/-! ## Response context builder
(enhanced_response_generator.py, context-preparation portion) -/

/-- Default confidence threshold of a ResponseContext. -/
def defaultConfidenceThreshold : ℚ := 3/10

/-- Filter and rank facts (_filter_relevant_facts): keep the facts whose
score is at least the threshold, sort by descending score, keep the top
five. -/
def filterRelevantFacts (retrieved : List (KnowledgeItem × ℚ))
    (threshold : ℚ) : List (KnowledgeItem × ℚ) :=
  (sortByScoreDesc (retrieved.filter (fun p => decide (threshold ≤ p.2)))).take 5

/-- Credibility multiplier per credibility value string, default 0.3
(_calculate_confidence_score). -/
def credibilityWeightOf (credibility : String) : ℚ :=
  if credibility = "primary" then 1
  else if credibility = "verified" then 4/5
  else if credibility = "secondary" then 3/5
  else if credibility = "unverified" then 3/10
  else 3/10

/-- Credibility multiplier of a fact: taken from its first source, or the
unverified tier when it has no sources. -/
def factCredWeight (it : KnowledgeItem) : ℚ :=
  credibilityWeightOf
    (match it.sources with
     | [] => "unverified"
     | s :: _ => s.credibility.value)

/-- Sum of score times credibility multiplier over the facts. -/
def confTotalScore (facts : List (KnowledgeItem × ℚ)) : ℚ :=
  (facts.map (fun p => p.2 * factCredWeight p.1)).sum

/-- Sum of the credibility multipliers over the facts. -/
def confTotalWeight (facts : List (KnowledgeItem × ℚ)) : ℚ :=
  (facts.map (fun p => factCredWeight p.1)).sum

/-- Overall confidence of a response (_calculate_confidence_score):
credibility-weighted average of the fact scores, capped at 1, with floor
value 0.1 when there are no facts or the total weight is zero. -/
def calculateConfidenceScore (facts : List (KnowledgeItem × ℚ)) : ℚ :=
  if facts = [] then 1/10
  else if confTotalWeight facts = 0 then 1/10
  else min (confTotalScore facts / confTotalWeight facts) 1

/-- Confidence attached to a generated response (generate_response): when
no retrieved fact passes the threshold the fallback response with
confidence 0.1 is produced, otherwise the confidence of the selected
facts. The text of the response comes from the external language-model
collaborator and is not modelled. -/
def responseConfidence (retrieved : List (KnowledgeItem × ℚ))
    (threshold : ℚ) : ℚ :=
  let relevant := filterRelevantFacts retrieved threshold
  if relevant = [] then 1/10 else calculateConfidenceScore relevant

/-! ## Fact store state (knowledge_base.py add_knowledge_item,
get_statistics) -/

/-- Row of the knowledge_items table (id is the PRIMARY KEY). -/
structure ItemRow where
  id : String
  content : String
  content_type : ContentType
  topic : String
  subtopic : Option String
  keywords : List String
  confidence_score : ℚ
  language : String
  deriving DecidableEq

/-- Row of the sources table. -/
structure SourceRow where
  knowledge_item_id : String
  url : String
  title : String
  source_type : String
  credibility : String
  author : Option String
  language : String
  deriving DecidableEq

/-- Row of the knowledge_fts full-text-index virtual table. In fts5 the
id column is a plain unindexed column: the table has no primary key or
unique constraint on it. -/
structure FtsRow where
  id : String
  content : String
  topic : String
  subtopic : Option String
  keywords : String
  deriving DecidableEq

/-- Persistent state of the fact store: the three tables. -/
structure KBState where
  knowledge_items : List ItemRow
  sources : List SourceRow
  knowledge_fts : List FtsRow
  deriving DecidableEq

/-- The empty store, as created by init_database. -/
def emptyKB : KBState := ⟨[], [], []⟩

/-- Item-table row written for an item. -/
def itemToRow (item : KnowledgeItem) : ItemRow :=
  ⟨item.id, item.content, item.content_type, item.topic, item.subtopic,
   item.keywords, item.confidence_score, item.language⟩

/-- Source-table row written for one source of an item. -/
def sourceToRow (itemId : String) (s : KnowledgeSource) : SourceRow :=
  ⟨itemId, s.url, s.title, s.source_type, s.credibility.value, s.author, s.language⟩

/-- Text-index row written for an item (keywords joined by spaces). -/
def ftsRowOf (item : KnowledgeItem) : FtsRow :=
  ⟨item.id, item.content, item.topic, item.subtopic, joinSpace item.keywords⟩

/-- INSERT OR REPLACE into a table whose first column is the primary key:
an existing row with the same id is replaced, otherwise the row is
appended. -/
def insertOrReplaceById (rows : List ItemRow) (r : ItemRow) : List ItemRow :=
  if rows.any (fun row => decide (row.id = r.id)) then
    rows.map (fun row => if row.id = r.id then r else row)
  else rows ++ [r]

/-- add_knowledge_item: INSERT OR REPLACE the item row; DELETE then INSERT
the source rows; INSERT OR REPLACE into knowledge_fts. Because the fts5
virtual table has no uniquely-constrained column, the REPLACE conflict
clause of the last statement never fires and the statement appends a new
row each time (this is the documented SQLite behaviour; a fresh rowid is
assigned when none is supplied). -/
def addKnowledgeItem (st : KBState) (item : KnowledgeItem) : KBState :=
  { knowledge_items := insertOrReplaceById st.knowledge_items (itemToRow item),
    sources := (st.sources.filter (fun s => decide (s.knowledge_item_id ≠ item.id)))
      ++ item.sources.map (sourceToRow item.id),
    knowledge_fts := st.knowledge_fts ++ [ftsRowOf item] }

/-- total_items of get_statistics: COUNT of the knowledge_items table. -/
def totalItems (st : KBState) : Nat := st.knowledge_items.length

/-! ## Language detection (knowledge_base.py detect_language) -/

/-- Characters of the Arabic Unicode block 0600 to 06FF. -/
def isArabicChar (c : Char) : Bool :=
  decide (0x600 ≤ c.toNat ∧ c.toNat ≤ 0x6FF)

/-- Fixed Spanish accented-character set. -/
def spanishPatterns : List Char := ['ñ', 'ü', 'é', 'á', 'í', 'ó', 'ú']

/-- Fixed French accented-character set. -/
def frenchPatterns : List Char := ['ç', 'à', 'è', 'ù', 'â', 'ê', 'î', 'ô', 'û']

/-- Character-pattern language classifier: Arabic block wins, then the
Spanish set against the lowered text, then the French set, default en. -/
def detectLanguage (text : String) : String :=
  if text.data.any isArabicChar then "ar"
  else if spanishPatterns.any (fun p => (pyLower text).data.contains p) then "es"
  else if frenchPatterns.any (fun p => (pyLower text).data.contains p) then "fr"
  else "en"

/-! ## Concrete fixtures used by witnesses and counterexamples -/

/-- Primary campaign source, as in create_sample_knowledge_base. -/
def wSource : KnowledgeSource :=
  { url := "https://www.ali2025.com/", title := "Ali 2025 Campaign",
    source_type := "website", credibility := .primary }

/-- Item whose keyword, topic and content all say education. -/
def wItemEdu : KnowledgeItem :=
  { id := "a", content := "education stuff", content_type := .faq,
    topic := "education", keywords := ["education"], sources := [wSource] }

/-- One-item store for the search witnesses. -/
def wKb : List KnowledgeItem := [wItemEdu]

/-- Item without sources, giving the default unverified credibility. -/
def wItemNoSrc : KnowledgeItem :=
  { id := "n", content := "no sources here", content_type := .faq, topic := "misc" }

/-- Item whose content contains an all-symbol token. -/
def cexItemDollar : KnowledgeItem :=
  { id := "d", content := "costs $$$ here", content_type := .faq,
    topic := "budget_notes" }

/-- Item with an uppercase stored keyword next to a lowercase one. -/
def cexItemUpper : KnowledgeItem :=
  { id := "h", content := "bio", content_type := .faq,
    topic := "candidate_qualifications", keywords := ["experience", "Harvard"] }

/-- The same item with the uppercase keyword removed. -/
def cexItemPlain : KnowledgeItem :=
  { id := "h", content := "bio", content_type := .faq,
    topic := "candidate_qualifications", keywords := ["experience"] }

/-- First payload upserted under id faq_x. -/
def upsV1 : KnowledgeItem :=
  { id := "faq_x", content := "first version", content_type := .faq,
    topic := "candidate_qualifications", keywords := ["experience"],
    sources := [wSource] }

/-- Second, different payload upserted under the same id faq_x. -/
def upsV2 : KnowledgeItem :=
  { id := "faq_x", content := "second version", content_type := .faq,
    topic := "candidate_qualifications", keywords := ["experience", "school board"],
    sources := [wSource] }

/-! ## Lemmas about the character and token helpers -/

/-- Char.ofNat round-trips through toNat below the surrogate range. -/
theorem char_toNat_ofNat (n : Nat) (h : n < 55296) : (Char.ofNat n).toNat = n := by
  unfold Char.ofNat
  rw [dif_pos (Or.inl h)]
  rfl

/-- Lower-casing never produces an ASCII uppercase character. -/
theorem isUpperA_pyLowerChar (c : Char) : isUpperA (pyLowerChar c) = false := by
  unfold pyLowerChar
  split
  · next h =>
    have hv : (Char.ofNat (c.toNat + 32)).toNat = c.toNat + 32 :=
      char_toNat_ofNat _ (by omega)
    simp only [isUpperA, hv, decide_eq_false_iff_not]
    omega
  · next h =>
    split
    · next p hp =>
      have hmem : p ∈ accentPairs := List.mem_of_find?_eq_some hp
      have hall : accentPairs.all (fun p => !(isUpperA p.2)) = true := by decide
      have := List.all_eq_true.mp hall p hmem
      simpa using this
    · simp only [isUpperA, decide_eq_false_iff_not]
      omega

/-- Characters of a token produced by the split worker come from the
input (and are not whitespace) or from the pending partial token. -/
theorem pySplitGo_chars (l : List Char) : ∀ cur t, t ∈ pySplitGo l cur →
    ∀ c ∈ t, (c ∈ l ∧ pyIsWs c = false) ∨ c ∈ cur := by
  induction l with
  | nil =>
    intro cur t ht c hc
    unfold pySplitGo at ht
    split at ht
    · simp at ht
    · simp only [List.mem_singleton] at ht
      subst ht
      exact Or.inr (List.mem_reverse.mp hc)
  | cons c0 t0 ih =>
    intro cur t ht c hc
    unfold pySplitGo at ht
    by_cases hws : pyIsWs c0 = true
    · rw [if_pos hws] at ht
      split at ht
      · rcases ih [] t ht c hc with ⟨h1, h2⟩ | h
        · exact Or.inl ⟨List.mem_cons_of_mem _ h1, h2⟩
        · simp at h
      · rcases List.mem_cons.mp ht with h | h
        · subst h
          exact Or.inr (List.mem_reverse.mp hc)
        · rcases ih [] t h c hc with ⟨h1, h2⟩ | hh
          · exact Or.inl ⟨List.mem_cons_of_mem _ h1, h2⟩
          · simp at hh
    · rw [if_neg hws] at ht
      rcases ih (c0 :: cur) t ht c hc with ⟨h1, h2⟩ | h
      · exact Or.inl ⟨List.mem_cons_of_mem _ h1, h2⟩
      · rcases List.mem_cons.mp h with h | h
        · subst h
          exact Or.inl ⟨List.mem_cons_self _ _, by simpa using hws⟩
        · exact Or.inr h

/-- Characters of a Python split token come from the split string and are
not whitespace. -/
theorem pySplit_chars (s : String) (w : String) (hw : w ∈ pySplit s)
    (c : Char) (hc : c ∈ w.data) : c ∈ s.data ∧ pyIsWs c = false := by
  unfold pySplit at hw
  rcases List.mem_map.mp hw with ⟨cs, hcs, rfl⟩
  rcases pySplitGo_chars s.data [] cs hcs c hc with h | h
  · exact h
  · simp at h

/-- Characters of a space-joined list come from a member or are spaces. -/
theorem joinSpace_chars (ws : List String) (c : Char)
    (hc : c ∈ (joinSpace ws).data) : (∃ w ∈ ws, c ∈ w.data) ∨ c = ' ' := by
  induction ws with
  | nil => simp [joinSpace] at hc
  | cons w rest ih =>
    match rest, ih with
    | [], _ =>
      exact Or.inl ⟨w, List.mem_cons_self _ _, by simpa [joinSpace] using hc⟩
    | r :: rs, ih =>
      simp only [joinSpace, String.data_append] at hc
      rcases List.mem_append.mp hc with h | h
      · rcases List.mem_append.mp h with h | h
        · exact Or.inl ⟨w, List.mem_cons_self _ _, h⟩
        · simp only [List.mem_singleton] at h
          exact Or.inr h
      · rcases ih h with ⟨w0, hw0, hcw0⟩ | h
        · exact Or.inl ⟨w0, List.mem_cons_of_mem _ hw0, hcw0⟩
        · exact Or.inr h

/-- Stripping only removes characters. -/
theorem pyStrip_chars (s : String) (c : Char) (hc : c ∈ (pyStrip s).data) :
    c ∈ s.data := by
  unfold pyStrip at hc
  simp only [List.mem_reverse] at hc
  have h1 := (List.dropWhile_sublist (l := (s.data.dropWhile pyIsWs).reverse) pyIsWs).subset hc
  simp only [List.mem_reverse] at h1
  exact (List.dropWhile_sublist pyIsWs).subset h1

/-- Every character of a lowered string is the lowering of a character of
the original. -/
theorem pyLower_chars (s : String) (c : Char) (hc : c ∈ (pyLower s).data) :
    ∃ c0 ∈ s.data, c = pyLowerChar c0 := by
  unfold pyLower at hc
  rcases List.mem_map.mp hc with ⟨c0, hc0, rfl⟩
  exact ⟨c0, hc0, rfl⟩

/-- No token of a normalized query contains an ASCII uppercase character:
normalization lower-cases the whole query before tokenizing. -/
theorem normalized_token_no_upper (query language : String) (w : String)
    (hw : w ∈ pySplit (normalizeQuery query language))
    (c : Char) (hc : c ∈ w.data) : isUpperA c = false := by
  have hmem := pySplit_chars _ _ hw c hc
  unfold normalizeQuery at hmem
  rcases joinSpace_chars _ _ hmem.1 with ⟨w0, hw0, hcw0⟩ | hsp
  · have hw0' : w0 ∈ pySplit (pyStrip (pyLower query)) := (List.mem_filter.mp hw0).1
    have h1 := (pySplit_chars _ _ hw0' c hcw0).1
    have h2 := pyStrip_chars _ _ h1
    rcases pyLower_chars _ _ h2 with ⟨c0, _, rfl⟩
    exact isUpperA_pyLowerChar c0
  · subst hsp
    rw [show pyIsWs ' ' = true from rfl] at hmem
    exact absurd hmem.2 (by simp)

/-! ## Lemmas about the merge-by-maximum deduplication -/

/-- All entries of a result list carry distinct item ids. -/
def DistinctIds (l : List (KnowledgeItem × ℚ)) : Prop :=
  l.Pairwise (fun a b => a.1.id ≠ b.1.id)

/-- One merge step preserves the dict invariants: distinct ids, entries
drawn from the processed input, every processed id represented, and each
entry maximal among processed entries of its id. -/
theorem mergeStep_inv (done acc : List (KnowledgeItem × ℚ)) (e : KnowledgeItem × ℚ)
    (h1 : DistinctIds acc)
    (h2 : ∀ p ∈ acc, p ∈ done)
    (h3 : ∀ q ∈ done, ∃ p ∈ acc, p.1.id = q.1.id)
    (h4 : ∀ p ∈ acc, ∀ q ∈ done, q.1.id = p.1.id → q.2 ≤ p.2) :
    DistinctIds (mergeStep acc e)
    ∧ (∀ p ∈ mergeStep acc e, p ∈ done ++ [e])
    ∧ (∀ q ∈ done ++ [e], ∃ p ∈ mergeStep acc e, p.1.id = q.1.id)
    ∧ (∀ p ∈ mergeStep acc e, ∀ q ∈ done ++ [e], q.1.id = p.1.id → q.2 ≤ p.2) := by
  unfold mergeStep
  by_cases hb : acc.any (fun q => decide (q.1.id = e.1.id)) = true
  · rw [if_pos hb]
    have hid : ∀ q : KnowledgeItem × ℚ,
        ((if q.1.id = e.1.id ∧ q.2 < e.2 then e else q)).1.id = q.1.id := by
      intro q
      split
      · next h => exact h.1.symm
      · rfl
    have hsc : ∀ q : KnowledgeItem × ℚ,
        q.2 ≤ ((if q.1.id = e.1.id ∧ q.2 < e.2 then e else q)).2 := by
      intro q
      split
      · next h => exact le_of_lt h.2
      · exact le_refl _
    refine ⟨?_, ?_, ?_, ?_⟩
    · rw [DistinctIds, List.pairwise_map]
      exact h1.imp (fun {a b} hab => by rw [hid a, hid b]; exact hab)
    · intro p hp
      rcases List.mem_map.mp hp with ⟨q, hq, rfl⟩
      split
      · exact List.mem_append.mpr (Or.inr (List.mem_singleton.mpr rfl))
      · exact List.mem_append.mpr (Or.inl (h2 q hq))
    · intro q hq
      rcases List.mem_append.mp hq with hq | hq
      · rcases h3 q hq with ⟨p0, hp0, hpid⟩
        refine ⟨_, List.mem_map.mpr ⟨p0, hp0, rfl⟩, ?_⟩
        rw [hid p0]
        exact hpid
      · rcases List.any_eq_true.mp hb with ⟨q0, hq0, hq0e⟩
        have hq0e' : q0.1.id = e.1.id := of_decide_eq_true hq0e
        have hqe := List.mem_singleton.mp hq
        subst hqe
        refine ⟨_, List.mem_map.mpr ⟨q0, hq0, rfl⟩, ?_⟩
        rw [hid q0]
        exact hq0e'
    · intro p hp q hq hqp
      rcases List.mem_map.mp hp with ⟨q0, hq0, rfl⟩
      have hpid : ((if q0.1.id = e.1.id ∧ q0.2 < e.2 then e else q0)).1.id = q0.1.id :=
        hid q0
      rcases List.mem_append.mp hq with hq | hq
      · exact le_trans (h4 q0 hq0 q hq (by rw [hqp, hpid])) (hsc q0)
      · rw [List.mem_singleton.mp hq] at hqp ⊢
        have heq0 : q0.1.id = e.1.id := by rw [← hpid, ← hqp]
        split
        · exact le_refl _
        · next hcond =>
          have : ¬ q0.2 < e.2 := fun hlt => hcond ⟨heq0, hlt⟩
          exact le_of_not_lt this
  · rw [if_neg hb]
    have hno : ∀ q ∈ acc, q.1.id ≠ e.1.id := by
      intro q hq h
      exact hb (List.any_eq_true.mpr ⟨q, hq, decide_eq_true h⟩)
    refine ⟨?_, ?_, ?_, ?_⟩
    · rw [DistinctIds, List.pairwise_append]
      exact ⟨h1, List.pairwise_singleton _ _, fun a ha b hbb =>
        by rw [List.mem_singleton.mp hbb]; exact hno a ha⟩
    · intro p hp
      rcases List.mem_append.mp hp with hp | hp
      · exact List.mem_append.mpr (Or.inl (h2 p hp))
      · exact List.mem_append.mpr (Or.inr hp)
    · intro q hq
      rcases List.mem_append.mp hq with hq | hq
      · rcases h3 q hq with ⟨p0, hp0, hpid⟩
        exact ⟨p0, List.mem_append.mpr (Or.inl hp0), hpid⟩
      · rw [List.mem_singleton.mp hq]
        exact ⟨e, List.mem_append.mpr (Or.inr (List.mem_singleton.mpr rfl)), rfl⟩
    · intro p hp q hq hqp
      rcases List.mem_append.mp hp with hp | hp
      · rcases List.mem_append.mp hq with hq | hq
        · exact h4 p hp q hq hqp
        · rw [List.mem_singleton.mp hq] at hqp
          exact absurd hqp.symm (hno p hp)
      · rw [List.mem_singleton.mp hp] at hqp ⊢
        rcases List.mem_append.mp hq with hq | hq
        · rcases h3 q hq with ⟨p0, hp0, hpid⟩
          exact absurd (hpid.trans hqp) (hno p0 hp0)
        · rw [List.mem_singleton.mp hq]

/-- Folding merge steps keeps the dict invariants across the whole input. -/
theorem dedup_foldl_inv (l : List (KnowledgeItem × ℚ)) :
    ∀ done acc, DistinctIds acc → (∀ p ∈ acc, p ∈ done) →
    (∀ q ∈ done, ∃ p ∈ acc, p.1.id = q.1.id) →
    (∀ p ∈ acc, ∀ q ∈ done, q.1.id = p.1.id → q.2 ≤ p.2) →
    DistinctIds (l.foldl mergeStep acc)
    ∧ (∀ p ∈ l.foldl mergeStep acc, p ∈ done ++ l)
    ∧ (∀ q ∈ done ++ l, ∃ p ∈ l.foldl mergeStep acc, p.1.id = q.1.id)
    ∧ (∀ p ∈ l.foldl mergeStep acc, ∀ q ∈ done ++ l, q.1.id = p.1.id → q.2 ≤ p.2) := by
  induction l with
  | nil =>
    intro done acc h1 h2 h3 h4
    rw [List.foldl_nil, List.append_nil]
    exact ⟨h1, h2, h3, h4⟩
  | cons e t ih =>
    intro done acc h1 h2 h3 h4
    have step := mergeStep_inv done acc e h1 h2 h3 h4
    have rec := ih (done ++ [e]) (mergeStep acc e) step.1 step.2.1 step.2.2.1 step.2.2.2
    rw [List.foldl_cons]
    rw [show done ++ e :: t = (done ++ [e]) ++ t by simp]
    exact rec

/-- The deduplicated union has pairwise-distinct ids, all its entries are
entries of the input, every input id is represented, and each entry is
maximal among input entries of its id. -/
theorem dedupMax_props (l : List (KnowledgeItem × ℚ)) :
    DistinctIds (dedupMax l)
    ∧ (∀ p ∈ dedupMax l, p ∈ l)
    ∧ (∀ q ∈ l, ∃ p ∈ dedupMax l, p.1.id = q.1.id)
    ∧ (∀ p ∈ dedupMax l, ∀ q ∈ l, q.1.id = p.1.id → q.2 ≤ p.2) := by
  have h := dedup_foldl_inv l [] [] (List.Pairwise.nil) (by simp) (by simp) (by simp)
  simpa [dedupMax] using h

/-! ## Lemmas about the retrieval stages -/

/-- A positive-overlap exact score is strictly positive and at most one. -/
theorem exactScore_bounds (query : String) (it : KnowledgeItem)
    (h : 0 < keywordOverlap query it) :
    0 < exactScore query it ∧ exactScore query it ≤ 1 := by
  have hle : keywordOverlap query it
      ≤ max (queryTokenSet query).card (keywordSet it).card :=
    le_trans (Finset.card_le_card Finset.inter_subset_left) (le_max_left _ _)
  unfold exactScore
  constructor
  · exact div_pos (by exact_mod_cast h) (by exact_mod_cast lt_of_lt_of_le h hle)
  · rw [div_le_one (by exact_mod_cast lt_of_lt_of_le h hle)]
    exact_mod_cast hle

/-- Every exact-stage entry comes from a stored item in the target or
default language with positive overlap, and carries the exact score. -/
theorem mem_searchExactKeywords {kb : List KnowledgeItem} {query language : String}
    {p : KnowledgeItem × ℚ} (hp : p ∈ searchExactKeywords kb query language) :
    p.1 ∈ kb ∧ langMatches p.1 language ∧ 0 < keywordOverlap query p.1
      ∧ p.2 = exactScore query p.1 := by
  unfold searchExactKeywords at hp
  rcases List.mem_filterMap.mp hp with ⟨it, hit, hfit⟩
  have hit' := ((List.perm_insertionSort byConfDesc _).mem_iff).mp hit
  rcases List.mem_filter.mp hit' with ⟨hkb, hlang⟩
  split at hfit
  · next hov =>
    cases hfit
    exact ⟨hkb, of_decide_eq_true hlang, hov, rfl⟩
  · cases hfit

/-- Conversely, every stored item in the target or default language with
positive overlap appears in the exact stage with the exact score. -/
theorem searchExactKeywords_complete {kb : List KnowledgeItem}
    {query language : String} {it : KnowledgeItem} (hkb : it ∈ kb)
    (hlang : langMatches it language) (hov : 0 < keywordOverlap query it) :
    (it, exactScore query it) ∈ searchExactKeywords kb query language := by
  unfold searchExactKeywords
  refine List.mem_filterMap.mpr ⟨it, ?_, ?_⟩
  · exact ((List.perm_insertionSort byConfDesc _).mem_iff).mpr
      (List.mem_filter.mpr ⟨hkb, decide_eq_true hlang⟩)
  · rw [if_pos hov]

/-- Every full-text-stage entry carries the flat raw score 0.7. -/
theorem mem_searchFts {kb : List KnowledgeItem} {query language : String}
    {p : KnowledgeItem × ℚ} (hp : p ∈ searchFts kb query language) :
    p.2 = 7/10 := by
  simp only [searchFts] at hp
  split at hp
  · simp at hp
  · rcases List.mem_map.mp hp with ⟨it, _, rfl⟩
    rfl

/-- Every substring-fallback entry carries the flat raw score 0.4. -/
theorem mem_fallbackContentSearch {kb : List KnowledgeItem} {query language : String}
    {p : KnowledgeItem × ℚ} (hp : p ∈ fallbackContentSearch kb query language) :
    p.2 = 2/5 := by
  unfold fallbackContentSearch at hp
  rcases List.mem_flatMap.mp hp with ⟨w, _, hw⟩
  split at hw
  · rcases List.mem_map.mp hw with ⟨it, _, rfl⟩
    rfl
  · simp at hw

/-- Every topic-stage entry carries raw score 0.5 or 0.3. -/
theorem mem_searchByTopic {kb : List KnowledgeItem} {query language : String}
    {p : KnowledgeItem × ℚ} (hp : p ∈ searchByTopic kb query language) :
    p.2 = 1/2 ∨ p.2 = 3/10 := by
  simp only [searchByTopic] at hp
  split at hp
  · simp at hp
  · rcases List.mem_map.mp hp with ⟨it, _, rfl⟩
    by_cases hin : it.topic ∈ relevantTopicsFor query
    · exact Or.inl (by simp [hin])
    · exact Or.inr (by simp [hin])

/-- Every multilingual-expansion entry is an exact-stage entry for the
expanded English query. -/
theorem mem_searchMultilingualExpansion {kb : List KnowledgeItem}
    {query language : String} {p : KnowledgeItem × ℚ}
    (hp : p ∈ searchMultilingualExpansion kb query language) :
    p ∈ searchExactKeywords kb (joinSpace (expandedKeywordsFor query language)) "en" := by
  simp only [searchMultilingualExpansion] at hp
  split at hp
  · simp at hp
  · exact hp

/-- Every weighted stage contribution lies in the half-open interval from
zero (excluded) to one. -/
theorem stageResults_bounds {kb : List KnowledgeItem} {query language : String}
    {p : KnowledgeItem × ℚ} (hp : p ∈ stageResults kb query language) :
    0 < p.2 ∧ p.2 ≤ 1 := by
  simp only [stageResults] at hp
  rcases List.mem_append.mp hp with hp | hp4
  · rcases List.mem_append.mp hp with hp | hp3
    · rcases List.mem_append.mp hp with hp1 | hp2
      · rcases List.mem_map.mp hp1 with ⟨q, hq, rfl⟩
        have h := mem_searchExactKeywords hq
        have hb := exactScore_bounds _ _ h.2.2.1
        rw [← h.2.2.2] at hb
        simpa using hb
      · rcases List.mem_map.mp hp2 with ⟨q, hq, rfl⟩
        have h := mem_searchFts hq
        simp only [h]
        norm_num
    · rcases List.mem_map.mp hp3 with ⟨q, hq, rfl⟩
      rcases mem_searchByTopic hq with h | h <;> simp only [h] <;> norm_num
  · split at hp4
    · rcases List.mem_map.mp hp4 with ⟨q, hq, rfl⟩
      have h := mem_searchExactKeywords (mem_searchMultilingualExpansion hq)
      have hb := exactScore_bounds _ _ h.2.2.1
      rw [← h.2.2.2] at hb
      constructor
      · exact mul_pos hb.1 (by norm_num)
      · calc q.2 * (7/10) ≤ 1 * (7/10) :=
              mul_le_mul_of_nonneg_right hb.2 (by norm_num)
          _ ≤ 1 := by norm_num
    · simp at hp4

/-! ## Lemmas about the assembled search -/

/-- Every returned entry is an entry of the deduplicated union. -/
theorem mem_searchKnowledge {kb : List KnowledgeItem} {query language : String}
    {limit : Nat} {p : KnowledgeItem × ℚ}
    (hp : p ∈ searchKnowledge kb query language limit) :
    p ∈ dedupMax (stageResults kb query language) := by
  unfold searchKnowledge at hp
  have h1 := (List.take_sublist limit _).subset hp
  exact ((List.perm_insertionSort byScoreDesc _).mem_iff).mp h1

/-- The returned list never repeats an item id. -/
theorem searchKnowledge_distinct (kb : List KnowledgeItem) (query language : String)
    (limit : Nat) : DistinctIds (searchKnowledge kb query language limit) := by
  have h := (dedupMax_props (stageResults kb query language)).1
  have h2 : DistinctIds (sortByScoreDesc (dedupMax (stageResults kb query language))) :=
    (((List.perm_insertionSort byScoreDesc _).pairwise_iff
      (fun hab => Ne.symm hab)).mpr) h
  exact h2.sublist (List.take_sublist _ _)

/-- The returned list is sorted by descending score. -/
theorem searchKnowledge_sorted (kb : List KnowledgeItem) (query language : String)
    (limit : Nat) : (searchKnowledge kb query language limit).Pairwise byScoreDesc := by
  have hs : (sortByScoreDesc (dedupMax (stageResults kb query language))).Pairwise byScoreDesc :=
    List.sorted_insertionSort byScoreDesc _
  exact hs.sublist (List.take_sublist _ _)

/-- The returned list respects the limit. -/
theorem searchKnowledge_length (kb : List KnowledgeItem) (query language : String)
    (limit : Nat) : (searchKnowledge kb query language limit).length ≤ limit :=
  List.length_take_le _ _

/-- Each returned entry is a stage contribution that is maximal among the
stage contributions sharing its item id. -/
theorem searchKnowledge_max (kb : List KnowledgeItem) (query language : String)
    (limit : Nat) (p : KnowledgeItem × ℚ)
    (hp : p ∈ searchKnowledge kb query language limit) :
    p ∈ stageResults kb query language
      ∧ ∀ q ∈ stageResults kb query language, q.1.id = p.1.id → q.2 ≤ p.2 := by
  have d := dedupMax_props (stageResults kb query language)
  have hm := mem_searchKnowledge hp
  exact ⟨d.2.1 p hm, fun q hq hid => d.2.2.2 p hm q hq hid⟩

/-- The exact stage of an empty store is empty. -/
theorem searchExactKeywords_nil (query language : String) :
    searchExactKeywords [] query language = [] := rfl

/-- The full-text stage of an empty store is empty. -/
theorem searchFts_nil (query language : String) :
    searchFts [] query language = [] := by
  simp only [searchFts]
  split <;> rfl

/-- The topic stage of an empty store is empty. -/
theorem searchByTopic_nil (query language : String) :
    searchByTopic [] query language = [] := by
  simp only [searchByTopic]
  split <;> rfl

/-- The expansion stage of an empty store is empty. -/
theorem searchMultilingualExpansion_nil (query language : String) :
    searchMultilingualExpansion [] query language = [] := by
  simp only [searchMultilingualExpansion]
  split <;> rfl

/-- All stages of an empty store are empty. -/
theorem stageResults_nil (query language : String) :
    stageResults [] query language = [] := by
  simp only [stageResults, searchExactKeywords_nil, searchFts_nil, searchByTopic_nil,
    searchMultilingualExpansion_nil, List.map_nil, List.append_nil, List.nil_append,
    ite_self]

/-! ## The claims -/

section

attribute [local semireducible] Rat.mul Rat.inv Rat.add Rat.sub

/-- C1: for every search call, when the same item is produced by more than
one retrieval stage, the final result list lists that item at most once,
and the score it carries is one of its weighted stage contributions that
is greater than or equal to every weighted stage contribution with the
same item id — the maximum, never the sum. -/
theorem search_merge_max_C1 (kb : List KnowledgeItem) (query language : String)
    (limit : Nat) :
    DistinctIds (searchKnowledge kb query language limit)
    ∧ ∀ p ∈ searchKnowledge kb query language limit,
        p ∈ stageResults kb query language
        ∧ ∀ q ∈ stageResults kb query language, q.1.id = p.1.id → q.2 ≤ p.2 :=
  ⟨searchKnowledge_distinct kb query language limit,
   fun p hp => searchKnowledge_max kb query language limit p hp⟩

/-- Witness for C1: a store whose single item is produced by the exact
stage (weighted 1), the full-text stage (weighted 0.56) and the topic
stage (weighted 0.3); the search returns it once with score 1 and the
theorem bounds the topic contribution 0.3 by the returned score. -/
theorem search_merge_max_C1_witness :
    (wItemEdu, (1:ℚ)) ∈ searchKnowledge wKb "education" "en" 10
    ∧ (wItemEdu, (3:ℚ)/10) ∈ stageResults wKb "education" "en"
    ∧ (3:ℚ)/10 ≤ 1 :=
  ⟨by decide, by decide,
   ((search_merge_max_C1 wKb "education" "en" 10).2 (wItemEdu, 1) (by decide)).2
     (wItemEdu, 3/10) (by decide) rfl⟩

/-- C2 (amended): when the sanitized full-text token set of the query is
empty, the full-text stage returns the empty result list directly and
does not invoke the substring fallback (the fallback is reached only if
the index query itself raises); the condition is recovered locally and
never surfaced to the caller as an error. -/
theorem fts_empty_tokens_C2 (kb : List KnowledgeItem) (query language : String)
    (h : cleanFtsWords query = []) : searchFts kb query language = [] := by
  simp [searchFts, h]

/-- Witness for C2: the all-symbol query has an empty sanitized token set
and the full-text stage returns no results. -/
theorem fts_empty_tokens_C2_witness :
    cleanFtsWords "$$$" = [] ∧ searchFts [cexItemDollar] "$$$" "en" = [] :=
  ⟨by decide, fts_empty_tokens_C2 [cexItemDollar] "$$$" "en" (by decide)⟩

/-- Counterexample to C2 as stated: on the all-symbol query the substring
fallback would return the matching item with raw score 0.4, but the
full-text stage returns the empty list instead of falling back, so the
two differ. -/
theorem fts_empty_tokens_C2_counterexample :
    cleanFtsWords "$$$" = []
    ∧ fallbackContentSearch [cexItemDollar] "$$$" "en" = [(cexItemDollar, 2/5)]
    ∧ searchFts [cexItemDollar] "$$$" "en"
        ≠ fallbackContentSearch [cexItemDollar] "$$$" "en" := by
  refine ⟨by decide, by decide, by decide⟩

/-- C3: for every query, language and limit, every returned score is
strictly positive and at most one, the returned list is sorted by
descending score, and its length is at most the limit. -/
theorem search_ranked_bounded_C3 (kb : List KnowledgeItem) (query language : String)
    (limit : Nat) :
    (∀ p ∈ searchKnowledge kb query language limit, 0 < p.2 ∧ p.2 ≤ 1)
    ∧ (searchKnowledge kb query language limit).Pairwise byScoreDesc
    ∧ (searchKnowledge kb query language limit).length ≤ limit := by
  refine ⟨?_, searchKnowledge_sorted kb query language limit,
    searchKnowledge_length kb query language limit⟩
  intro p hp
  exact stageResults_bounds (searchKnowledge_max kb query language limit p hp).1

/-- Witness for C3: the one-item search returns the item with score 1,
which the theorem bounds inside the half-open unit interval. -/
theorem search_ranked_bounded_C3_witness :
    (wItemEdu, (1:ℚ)) ∈ searchKnowledge wKb "education" "en" 10
    ∧ (0 < (1:ℚ) ∧ (1:ℚ) ≤ 1) :=
  ⟨by decide,
   (search_ranked_bounded_C3 wKb "education" "en" 10).1 (wItemEdu, 1) (by decide)⟩

/-- C4: in the exact-keyword stage every result comes from an item in the
target or default language, has positive query-token and keyword overlap,
and scores overlap over the larger of the two set sizes; conversely every
stored item in an eligible language with positive overlap is returned
with that score, and zero-overlap items are excluded. -/
theorem exact_keyword_score_C4 (kb : List KnowledgeItem) (query language : String) :
    (∀ p ∈ searchExactKeywords kb query language,
        langMatches p.1 language ∧ 0 < keywordOverlap query p.1
          ∧ p.2 = exactScore query p.1)
    ∧ ∀ it ∈ kb, langMatches it language → 0 < keywordOverlap query it →
        (it, exactScore query it) ∈ searchExactKeywords kb query language :=
  ⟨fun _ hp => (mem_searchExactKeywords hp).2,
   fun _ hit hl hov => searchExactKeywords_complete hit hl hov⟩

/-- Witness for C4: the education item overlaps the query in one keyword
and scores exactly the overlap formula. -/
theorem exact_keyword_score_C4_witness :
    (wItemEdu, (1:ℚ)) ∈ searchExactKeywords wKb "education" "en"
    ∧ (langMatches wItemEdu "en" ∧ 0 < keywordOverlap "education" wItemEdu
        ∧ (1:ℚ) = exactScore "education" wItemEdu) :=
  ⟨by decide,
   (exact_keyword_score_C4 wKb "education" "en").1 (wItemEdu, 1) (by decide)⟩

/-- C5: the overall answer confidence is the credibility-weighted average
of the selected fact scores (whenever the scores are retrieval scores,
hence at most one), and with no facts or zero total weight it is exactly
0.1 and in particular not zero. -/
theorem confidence_weighted_average_C5 (facts : List (KnowledgeItem × ℚ)) :
    ((facts = [] ∨ confTotalWeight facts = 0) →
        calculateConfidenceScore facts = 1/10 ∧ calculateConfidenceScore facts ≠ 0)
    ∧ (facts ≠ [] → (∀ p ∈ facts, p.2 ≤ 1) →
        calculateConfidenceScore facts = confTotalScore facts / confTotalWeight facts) := by
  have hcw : ∀ s : String, (3:ℚ)/10 ≤ credibilityWeightOf s := by
    intro s
    unfold credibilityWeightOf
    split_ifs <;> norm_num
  have hfw : ∀ it : KnowledgeItem, (3:ℚ)/10 ≤ factCredWeight it := fun _ => hcw _
  constructor
  · intro h
    have hv : calculateConfidenceScore facts = 1/10 := by
      unfold calculateConfidenceScore
      rcases h with h | h
      · rw [if_pos h]
      · by_cases he : facts = []
        · rw [if_pos he]
        · rw [if_neg he, if_pos h]
    exact ⟨hv, by rw [hv]; norm_num⟩
  · intro hne hle
    have hwpos : 0 < confTotalWeight facts := by
      match facts, hne with
      | p :: rest, _ =>
        unfold confTotalWeight
        rw [List.map_cons, List.sum_cons]
        have h1 : (3:ℚ)/10 ≤ factCredWeight p.1 := hfw _
        have h2 : 0 ≤ (rest.map (fun p => factCredWeight p.1)).sum := by
          apply List.sum_nonneg
          intro x hx
          rcases List.mem_map.mp hx with ⟨q, _, rfl⟩
          exact le_trans (by norm_num) (hfw q.1)
        linarith
    have hsle : confTotalScore facts ≤ confTotalWeight facts := by
      unfold confTotalScore confTotalWeight
      apply List.sum_le_sum
      intro p hp
      exact mul_le_of_le_one_left (le_trans (by norm_num) (hfw p.1)) (hle p hp)
    unfold calculateConfidenceScore
    rw [if_neg hne, if_neg (ne_of_gt hwpos)]
    exact min_eq_left ((div_le_one hwpos).mpr hsle)

/-- Witness for C5: the empty fact list floors at 0.1, and a two-fact list
mixing a primary-sourced and a sourceless fact gets exactly the weighted
average. -/
theorem confidence_weighted_average_C5_witness :
    (calculateConfidenceScore [] = 1/10 ∧ calculateConfidenceScore [] ≠ 0)
    ∧ calculateConfidenceScore [(wItemEdu, 1/2), (wItemNoSrc, 2/5)]
        = confTotalScore [(wItemEdu, 1/2), (wItemNoSrc, 2/5)]
          / confTotalWeight [(wItemEdu, 1/2), (wItemNoSrc, 2/5)] :=
  ⟨(confidence_weighted_average_C5 []).1 (Or.inl rfl),
   (confidence_weighted_average_C5 [(wItemEdu, 1/2), (wItemNoSrc, 2/5)]).2
     (by decide) (by decide)⟩

/-- C6: the context builder selects exactly the facts scoring at or above
the threshold — every selected fact passes the threshold, the selection
is sorted descending and holds at most five facts, and when fewer than
five are selected it misses no qualifying fact; an empty selection drives
the fallback whose confidence is 0.1. -/
theorem context_threshold_filter_C6 (retrieved : List (KnowledgeItem × ℚ))
    (threshold : ℚ) :
    (∀ p ∈ filterRelevantFacts retrieved threshold, threshold ≤ p.2)
    ∧ (filterRelevantFacts retrieved threshold).Pairwise byScoreDesc
    ∧ (filterRelevantFacts retrieved threshold).length ≤ 5
    ∧ ((filterRelevantFacts retrieved threshold).length < 5 →
        ∀ p ∈ retrieved, threshold ≤ p.2 →
          p ∈ filterRelevantFacts retrieved threshold)
    ∧ (filterRelevantFacts retrieved threshold = [] →
        responseConfidence retrieved threshold = 1/10) := by
  have key : filterRelevantFacts retrieved threshold
      = ((retrieved.filter (fun p => decide (threshold ≤ p.2))).insertionSort
          byScoreDesc).take 5 := rfl
  refine ⟨?_, ?_, ?_, ?_, ?_⟩
  · intro p hp
    rw [key] at hp
    have h1 := (List.take_sublist 5 _).subset hp
    have h2 := ((List.perm_insertionSort byScoreDesc _).mem_iff).mp h1
    exact of_decide_eq_true (List.mem_filter.mp h2).2
  · rw [key]
    exact (List.sorted_insertionSort byScoreDesc _).sublist (List.take_sublist _ _)
  · rw [key]
    exact List.length_take_le _ _
  · intro hlen p hp hth
    rw [key] at hlen ⊢
    have hlen2 :
        ((retrieved.filter (fun p => decide (threshold ≤ p.2))).insertionSort
          byScoreDesc).length < 5 := by
      rw [List.length_take] at hlen
      omega
    rw [List.take_of_length_le (le_of_lt hlen2)]
    exact ((List.perm_insertionSort byScoreDesc _).mem_iff).mpr
      (List.mem_filter.mpr ⟨hp, decide_eq_true hth⟩)
  · intro h
    simp only [responseConfidence]
    rw [if_pos h]

/-- Witness for C6: with the default threshold 0.3, a 0.5-scoring fact is
selected and passes the threshold, while a list whose only fact scores
0.2 selects nothing and the response confidence floors at 0.1. -/
theorem context_threshold_filter_C6_witness :
    (wItemEdu, (1:ℚ)/2) ∈
        filterRelevantFacts [(wItemNoSrc, 1/5), (wItemEdu, 1/2)] defaultConfidenceThreshold
    ∧ defaultConfidenceThreshold ≤ (1:ℚ)/2
    ∧ responseConfidence [(wItemNoSrc, (1:ℚ)/5)] defaultConfidenceThreshold = 1/10 :=
  ⟨by decide,
   (context_threshold_filter_C6 [(wItemNoSrc, 1/5), (wItemEdu, 1/2)]
       defaultConfidenceThreshold).1 (wItemEdu, 1/2) (by decide),
   (context_threshold_filter_C6 [(wItemNoSrc, (1:ℚ)/5)]
       defaultConfidenceThreshold).2.2.2.2 (by decide)⟩

/-- C7: upserting the same id twice leaves exactly one item row holding
the most recent payload, replaces the source rows, and keeps total_items
unchanged — but the text-index row is not replaced: the fts5 table has no
unique constraint for the REPLACE clause to act on, so the second upsert
leaves two index rows for the id, contradicting the claimed consistency
of the text index. -/
theorem upsert_index_rows_C7 :
    ((addKnowledgeItem (addKnowledgeItem emptyKB upsV1) upsV2).knowledge_items.filter
        (fun r => decide (r.id = "faq_x"))) = [itemToRow upsV2]
    ∧ ((addKnowledgeItem (addKnowledgeItem emptyKB upsV1) upsV2).sources.filter
        (fun s => decide (s.knowledge_item_id = "faq_x")))
          = upsV2.sources.map (sourceToRow "faq_x")
    ∧ totalItems (addKnowledgeItem (addKnowledgeItem emptyKB upsV1) upsV2)
        = totalItems (addKnowledgeItem emptyKB upsV1)
    ∧ ((addKnowledgeItem (addKnowledgeItem emptyKB upsV1) upsV2).knowledge_fts.filter
        (fun r => decide (r.id = "faq_x"))).length = 2 := by
  decide

/-- C8: the classifier checks, in order, the Arabic block, the fixed
Spanish set against the lowered text, the disjoint fixed French set, and
defaults to English; the two cited examples classify as es and en. -/
theorem detect_language_C8 (text : String) :
    (text.data.any isArabicChar = true → detectLanguage text = "ar")
    ∧ (text.data.any isArabicChar = false →
        spanishPatterns.any (fun p => (pyLower text).data.contains p) = true →
        detectLanguage text = "es")
    ∧ (text.data.any isArabicChar = false →
        spanishPatterns.any (fun p => (pyLower text).data.contains p) = false →
        frenchPatterns.any (fun p => (pyLower text).data.contains p) = true →
        detectLanguage text = "fr")
    ∧ (text.data.any isArabicChar = false →
        spanishPatterns.any (fun p => (pyLower text).data.contains p) = false →
        frenchPatterns.any (fun p => (pyLower text).data.contains p) = false →
        detectLanguage text = "en")
    ∧ (∀ c ∈ spanishPatterns, c ∉ frenchPatterns)
    ∧ detectLanguage "¿Cuál es?" = "es" ∧ detectLanguage "hello" = "en" := by
  refine ⟨?_, ?_, ?_, ?_, by decide, by decide, by decide⟩
  · intro h1
    unfold detectLanguage
    rw [h1]
    simp
  · intro h1 h2
    unfold detectLanguage
    rw [h1, h2]
    simp
  · intro h1 h2 h3
    unfold detectLanguage
    rw [h1, h2, h3]
    simp
  · intro h1 h2 h3
    unfold detectLanguage
    rw [h1, h2, h3]
    simp

/-- Witness for C8: the Spanish rule fires on the cited example, whose
text has no Arabic character but a Spanish accented character. -/
theorem detect_language_C8_witness :
    ("¿Cuál es?".data.any isArabicChar = false
      ∧ spanishPatterns.any (fun p => (pyLower "¿Cuál es?").data.contains p) = true)
    ∧ detectLanguage "¿Cuál es?" = "es" :=
  ⟨⟨by decide, by decide⟩,
   (detect_language_C8 "¿Cuál es?").2.1 (by decide) (by decide)⟩

/-- C9: searching an empty store returns the empty list for every query,
language and limit; the embedding is total, so no exception reaches the
caller. -/
theorem search_empty_store_C9 (query language : String) (limit : Nat) :
    searchKnowledge [] query language limit = [] := by
  unfold searchKnowledge
  rw [stageResults_nil]
  rw [show dedupMax [] = [] from rfl]
  rw [show sortByScoreDesc [] = [] from rfl]
  exact List.take_nil

/-- C10 (amended): a stored keyword containing an ASCII uppercase
character never enters the overlap between the normalized query-token set
and the keyword set, because normalization lower-cases the whole query;
it still counts toward the keyword-set size in the score denominator, so
it can lower (though never raise) the exact-keyword stage score. -/
theorem uppercase_keyword_overlap_C10 (query language : String)
    (it : KnowledgeItem) (kw : String)
    (hup : ∃ c ∈ kw.data, isUpperA c = true) :
    kw ∉ queryTokenSet (normalizeQuery query language) ∩ keywordSet it := by
  intro hmem
  rcases hup with ⟨c, hc, hcup⟩
  unfold queryTokenSet keywordSet at hmem
  have h1 := (Finset.mem_inter.mp hmem).1
  have h2 : kw ∈ pySplit (normalizeQuery query language) := List.mem_toFinset.mp h1
  have h3 := normalized_token_no_upper query language kw h2 c hc
  rw [h3] at hcup
  exact Bool.false_ne_true hcup

/-- Witness for C10: the stored keyword Harvard is never in the overlap
for a query that literally contains Harvard. -/
theorem uppercase_keyword_overlap_C10_witness :
    (∃ c ∈ "Harvard".data, isUpperA c = true)
    ∧ "Harvard" ∉ queryTokenSet (normalizeQuery "Harvard experience" "en")
        ∩ keywordSet cexItemUpper :=
  ⟨by decide,
   uppercase_keyword_overlap_C10 "Harvard experience" "en" cexItemUpper "Harvard"
     (by decide)⟩

/-- Counterexample to C10 as stated: the uppercase keyword does affect the
exact-keyword stage score — with it the item scores 1/2 on the query,
without it the same item scores 1. -/
theorem uppercase_keyword_overlap_C10_counterexample :
    searchExactKeywords [cexItemUpper] "experience" "en" = [(cexItemUpper, 1/2)]
    ∧ searchExactKeywords [cexItemPlain] "experience" "en" = [(cexItemPlain, 1)]
    ∧ ((1:ℚ)/2) ≠ 1 := by
  refine ⟨by decide, by decide, by norm_num⟩

end
